import Mathlib

/-!
Verification of the evaluation core of `opensearch-genai-sdk-ts`
(`src/evals/protocol.ts` and `src/evals/evaluate.ts`), over a shallow
embedding of the relevant JavaScript runtime values and of the two source
files' functions.

JavaScript runtime values are modelled by the inductive type `JsValue`:
objects are insertion-ordered association lists (a key may be present with
stored value `undefined`, which is distinct from the key being absent),
numbers are rationals plus an explicit `NaN` representative, and thrown
exceptions are modelled by `Except String` carrying the `String(err)`
rendering of the thrown value.  Proxies, getters and values with throwing
`toString` are outside the value model: every value here is plain data, as
produced by task functions and scorers that return data.
-/

namespace SdkEvals

/-- A JavaScript runtime value, restricted to plain data. -/
inductive JsValue where
  | vUndefined : JsValue
  | vNull : JsValue
  | vBool : Bool → JsValue
  | vNum : Rat → JsValue
  | vNaN : JsValue
  | vStr : String → JsValue
  | vArr : List JsValue → JsValue
  | vObj : List (String × JsValue) → JsValue

/-- First-match lookup of a key in an object's field list (JS objects have
unique keys; every object built below preserves that). -/
def lookupKey {α : Type} : List (String × α) → String → Option α
  | [], _ => none
  | (k, v) :: rest, key => if k = key then some v else lookupKey rest key

/-- `key in obj` on a field list: key presence, regardless of stored value. -/
def hasKey {α : Type} (fields : List (String × α)) (key : String) : Bool :=
  (lookupKey fields key).isSome

/-- Property read `v[key]`: `undefined` when the key is absent or the value
is not an object.  (`adaptScore` only reads properties after a
`typeof === "object"` guard, so the non-object arm is never reached there.) -/
def getField : JsValue → String → JsValue
  | .vObj fields, key => (lookupKey fields key).getD .vUndefined
  | _, _ => .vUndefined

/-- `key in v` for a value: false on non-objects (model arrays have no
string-keyed own properties). -/
def keyIn (v : JsValue) (key : String) : Bool :=
  match v with
  | .vObj fields => hasKey fields key
  | _ => false

/-- The field list of an object value. -/
def objFields : JsValue → List (String × JsValue)
  | .vObj fields => fields
  | _ => []

/-- `typeof v === "string"`. -/
def typeofIsString : JsValue → Bool
  | .vStr _ => true
  | _ => false

/-- `typeof v === "number"` (`NaN` is of number type). -/
def typeofIsNumber : JsValue → Bool
  | .vNum _ => true
  | .vNaN => true
  | _ => false

/-- A finite (non-`NaN`) number. -/
def isFiniteNum : JsValue → Bool
  | .vNum _ => true
  | _ => false

/-- `v === undefined`. -/
def isUndef : JsValue → Bool
  | .vUndefined => true
  | _ => false

/-- `v === null || v === undefined` (the values the `??` operator skips). -/
def isNullish : JsValue → Bool
  | .vUndefined => true
  | .vNull => true
  | _ => false

/-- The nullish-coalescing operator `a ?? b`. -/
def nullishOr (a b : JsValue) : JsValue :=
  if isNullish a then b else a

/-- `typeof v === "object" && v !== null` (arrays included, as in JS). -/
def isObjNonNull : JsValue → Bool
  | .vObj _ => true
  | .vArr _ => true
  | _ => false

/-- `typeof v === "object" && v !== null && !Array.isArray(v)`. -/
def isPlainObj : JsValue → Bool
  | .vObj _ => true
  | _ => false

mutual

/-- The JS `String(v)` conversion on plain data.  The rational rendering
stands in for JS number formatting; no claim depends on its exact text. -/
def jsToString : JsValue → String
  | .vUndefined => "undefined"
  | .vNull => "null"
  | .vBool b => if b then "true" else "false"
  | .vNum q => toString q
  | .vNaN => "NaN"
  | .vStr s => s
  | .vArr xs => String.intercalate "," (jsArrayParts xs)
  | .vObj _ => "[object Object]"

/-- `Array.prototype.toString` element parts: `null` and `undefined`
render as the empty string inside an array. -/
def jsArrayParts : List JsValue → List String
  | [] => []
  | x :: rest =>
    (match x with
     | .vUndefined => ""
     | .vNull => ""
     | y => jsToString y) :: jsArrayParts rest

end

/- ----------------------------------------------------------------
   src/evals/protocol.ts
---------------------------------------------------------------- -/

/-- `isScore` (protocol.ts 122-126): object, non-null, `name` of string
type, and `"value" in obj || "label" in obj` — key presence only. -/
def isScore (v : JsValue) : Bool :=
  if !(isObjNonNull v) then false
  else typeofIsString (getField v "name") && (keyIn v "value" || keyIn v "label")

/-- `isAutoEvalsResult` (protocol.ts 136-139): object, non-null, with a
`score` key holding a value of number type. -/
def isAutoEvalsResult (v : JsValue) : Bool :=
  if !(isObjNonNull v) then false
  else keyIn v "score" && typeofIsNumber (getField v "score")

/-- `isPhoenixEvalsResult` (protocol.ts 147-151): object, non-null, with
string-typed `label` and `explanation` fields. -/
def isPhoenixEvalsResult (v : JsValue) : Bool :=
  if !(isObjNonNull v) then false
  else typeofIsString (getField v "label") && typeofIsString (getField v "explanation")

/-- `adaptScore` (protocol.ts 68-118).  The return value is kept as a raw
`JsValue`: at runtime the function returns the JS object it builds (or the
argument itself in the passthrough branch), and later code reads fields off
it dynamically. -/
def adaptScore (scorerName : String) (result : JsValue) : JsValue :=
  if isScore result then
    result
  else if isAutoEvalsResult result then
    .vObj [("name", .vStr scorerName),
           ("value", getField result "score"),
           ("label", nullishOr (getField result "choice") (getField result "label")),
           ("rationale", getField result "rationale"),
           ("metadata", nullishOr (getField result "metadata") (.vObj []))]
  else if isPhoenixEvalsResult result then
    .vObj [("name", .vStr scorerName),
           ("value", getField result "score"),
           ("label", getField result "label"),
           ("rationale", getField result "explanation")]
  else if typeofIsNumber result then
    .vObj [("name", .vStr scorerName), ("value", result)]
  else if isPlainObj result then
    .vObj [("name", .vStr scorerName),
           ("value", nullishOr (getField result "value") (getField result "score")),
           ("label", getField result "label"),
           ("rationale", nullishOr (getField result "rationale") (getField result "explanation")),
           ("metadata", .vObj ((objFields result).filter
              (fun kv => !(["value", "score", "label", "rationale", "explanation"].contains kv.1))))]
  else
    .vObj [("name", .vStr scorerName), ("metadata", .vObj [("raw", .vStr (jsToString result))])]

/- ----------------------------------------------------------------
   JS numeric coercion (needed by the `averages` computation, which
   applies `+` and `/` to whatever ended up in a Score's `value` field)
---------------------------------------------------------------- -/

/-- Parse an unsigned decimal literal `digits[.digits]` as a rational.
Stands in for the corresponding fragment of the JS `Number(string)`
grammar; strings outside this fragment coerce to `NaN` (`none`). -/
def parseDecimal (s : List Char) : Option Rat :=
  let intPart := s.takeWhile (fun c => c.isDigit)
  let rest := s.drop intPart.length
  if intPart = [] then none
  else
    let intVal : Nat := intPart.foldl (fun n c => n * 10 + (c.toNat - 48)) 0
    match rest with
    | [] => some (intVal : Rat)
    | '.' :: fracPart =>
      if fracPart.all (fun c => c.isDigit) && fracPart ≠ [] then
        let fracVal : Nat := fracPart.foldl (fun n c => n * 10 + (c.toNat - 48)) 0
        some ((intVal : Rat) + (fracVal : Rat) / ((10 : Rat) ^ fracPart.length))
      else none
    | _ => none

/-- JS `Number(string)`: trimmed; empty is `0`; optional sign then a
decimal literal; anything else is `NaN` (`none`). -/
def jsStringToNumber (s : String) : Option Rat :=
  let t := s.trim
  if t = "" then some 0
  else
    match t.data with
    | '-' :: rest => (parseDecimal rest).map (fun q => -q)
    | '+' :: rest => parseDecimal rest
    | cs => parseDecimal cs

/-- JS `ToNumber` on plain data; `none` is `NaN`.  Arrays coerce through
their string rendering, plain objects to `NaN` (`Number("[object Object]")`). -/
def jsToNumber : JsValue → Option Rat
  | .vUndefined => none
  | .vNull => some 0
  | .vBool b => some (if b then 1 else 0)
  | .vNum q => some q
  | .vNaN => none
  | .vStr s => jsStringToNumber s
  | .vArr xs => jsStringToNumber (jsToString (.vArr xs))
  | .vObj _ => none

/-- JS `ToPrimitive` with default hint on plain data: arrays and objects
become their string rendering, primitives are unchanged. -/
def toPrimitiveJs : JsValue → JsValue
  | .vArr xs => .vStr (jsToString (.vArr xs))
  | .vObj fields => .vStr (jsToString (.vObj fields))
  | v => v

/-- The JS `+` operator on plain data: string concatenation if either
primitive is a string, numeric addition otherwise (`NaN` absorbs). -/
def jsAdd (a b : JsValue) : JsValue :=
  let pa := toPrimitiveJs a
  let pb := toPrimitiveJs b
  match pa, pb with
  | .vStr s, _ => .vStr (s ++ jsToString pb)
  | _, .vStr s => .vStr (jsToString pa ++ s)
  | _, _ =>
    match jsToNumber pa, jsToNumber pb with
    | some x, some y => .vNum (x + y)
    | _, _ => .vNaN

/-- The JS `/` operator on plain data.  Division by zero yields `Infinity`
or `NaN` in JS; the model collapses both to `vNaN` — the orchestrator only
divides by the length of a nonempty list, so this arm is never reached. -/
def jsDiv (a b : JsValue) : JsValue :=
  match jsToNumber (toPrimitiveJs a), jsToNumber (toPrimitiveJs b) with
  | some x, some y => if y = 0 then .vNaN else .vNum (x / y)
  | _, _ => .vNaN

/-- `String.prototype.slice(0, n)` (evaluate.ts truncates rationale with
`.slice(0, 500)`). -/
def jsSlice (s : String) (n : Nat) : String :=
  String.mk (s.data.take n)

/- ----------------------------------------------------------------
   src/evals/evaluate.ts — data model
---------------------------------------------------------------- -/

/-- One dataset row (evaluate.ts `EvalDatum`).  Only `input` and
`expected` are read by the orchestrator; an absent `expected` key reads as
`undefined`, so it is stored as `vUndefined`. -/
structure EvalDatum where
  input : JsValue
  expected : JsValue

/-- The argument object passed to `scorer.score` (evaluate.ts 200-204):
input/output coerced with `String(...)`, `expected` omitted (undefined)
when the datum had none. -/
structure ScorerArgs where
  input : String
  output : String
  expected : Option String

/-- A scorer (protocol.ts `Scorer`): a name and a `score` operation that
may throw (`Except.error` carries the `String(err)` rendering). -/
structure Scorer where
  name : String
  score : ScorerArgs → Except String JsValue

/-- One item's outcome (evaluate.ts `EvalResult`).  `scores` is an
insertion-ordered map from scorer name to the adapted score object. -/
structure EvalResult where
  input : JsValue
  expected : JsValue
  output : Option JsValue
  scores : List (String × JsValue)
  error : Option String

/-- The run summary (evaluate.ts `EvalSummary`).  `averages` values are
`JsValue` because the source computes them with JS `+` and `/` on whatever
the Score's `value` field holds. -/
structure EvalSummary where
  name : String
  results : List EvalResult
  averages : List (String × JsValue)
  total : Nat
  errors : Nat

/-- One call handed to the score-emission collaborator `submitScore`
(evaluate.ts 240-249), with the fields the claims are about. -/
structure EmitCall where
  name : String
  value : JsValue
  label : JsValue
  rationale : JsValue
  evalName : String
  itemIndex : Nat

/-- One `eval.score.rationale` span attribute (evaluate.ts 214-219). -/
structure RationaleAttrEvent where
  itemIndex : Nat
  scorerName : String
  attr : String

/-- The observable outcome of a run: the returned summary, the sequence of
calls handed to the emission collaborator, and the rationale span
attributes set on scorer spans. -/
structure EvalTrace where
  summary : EvalSummary
  emits : List EmitCall
  rationaleAttrs : List RationaleAttrEvent

/- ----------------------------------------------------------------
   src/evals/evaluate.ts — the orchestrator
---------------------------------------------------------------- -/

/-- JS object index assignment `m[k] = v`: overwrite in place if the key
exists, append otherwise (evaluate.ts 206). -/
def setKey (m : List (String × JsValue)) (k : String) (v : JsValue) : List (String × JsValue) :=
  if m.any (fun kv => kv.1 = k) then
    m.map (fun kv => if kv.1 = k then (k, v) else kv)
  else m ++ [(k, v)]

/-- Build the scorer argument object (evaluate.ts 200-204). -/
def mkScorerArgs (d : EvalDatum) (out : JsValue) : ScorerArgs :=
  { input := jsToString d.input,
    output := jsToString out,
    expected := if isUndef d.expected then none else some (jsToString d.expected) }

/-- The `eval.score.rationale` span attribute for one adapted score
(evaluate.ts 214-219): set only when `scoreObj.rationale` is a truthy
string, truncated with `.slice(0, 500)`.  When the field holds a truthy
non-string the source throws at `.slice` inside the same `try` (after the
score was already recorded) and no attribute is set, so those cases also
produce no event. -/
def rationaleEvent (i : Nat) (scorerName : String) (scoreObj : JsValue) :
    List RationaleAttrEvent :=
  match getField scoreObj "rationale" with
  | .vStr r => if r = "" then [] else [⟨i, scorerName, jsSlice r 500⟩]
  | _ => []

/-- The scorer loop for one item (evaluate.ts 192-230): invoke each scorer
in caller order; on success adapt the result and record it under the
scorer's name; on throw record nothing and continue. -/
def runScorersAux (i : Nat) (args : ScorerArgs)
    (acc : List (String × JsValue)) (ats : List RationaleAttrEvent) :
    List Scorer → List (String × JsValue) × List RationaleAttrEvent
  | [] => (acc, ats)
  | scorer :: rest =>
    match scorer.score args with
    | .ok rawResult =>
      let scoreObj := adaptScore scorer.name rawResult
      runScorersAux i args (setKey acc scorer.name scoreObj)
        (ats ++ rationaleEvent i scorer.name scoreObj) rest
    | .error _ => runScorersAux i args acc ats rest

/-- The emission call for one recorded score entry (evaluate.ts 240-249). -/
def mkEmitCall (evalName : String) (i : Nat) (kv : String × JsValue) : EmitCall :=
  { name := kv.1,
    value := getField kv.2 "value",
    label := getField kv.2 "label",
    rationale := getField kv.2 "rationale",
    evalName := evalName,
    itemIndex := i }

/-- One item of the run (evaluate.ts 150-262): run the task; on throw
record the error and skip scoring and emission; on success run the scorer
loop and, if `emitScores`, hand every recorded score to the emission
collaborator. -/
def processItem (evalName : String) (emitScores : Bool) (i : Nat) (datum : EvalDatum)
    (task : JsValue → Except String JsValue) (scorers : List Scorer) :
    EvalResult × List EmitCall × List RationaleAttrEvent :=
  match task datum.input with
  | .error err =>
    ({ input := datum.input, expected := datum.expected,
       output := none, scores := [], error := some err }, [], [])
  | .ok outputVal =>
    let sa := runScorersAux i (mkScorerArgs datum outputVal) [] [] scorers
    let emits := if emitScores then sa.1.map (mkEmitCall evalName i) else []
    ({ input := datum.input, expected := datum.expected,
       output := some outputVal, scores := sa.1, error := none }, emits, sa.2)

/-- The item loop (evaluate.ts 139-263), threading the item index. -/
def evaluateItems (evalName : String) (emitScores : Bool)
    (task : JsValue → Except String JsValue) (scorers : List Scorer) :
    Nat → List EvalDatum → List EvalResult × List EmitCall × List RationaleAttrEvent
  | _, [] => ([], [], [])
  | i, datum :: rest =>
    let pr := processItem evalName emitScores i datum task scorers
    let prs := evaluateItems evalName emitScores task scorers (i + 1) rest
    (pr.1 :: prs.1, pr.2.1 ++ prs.2.1, pr.2.2 ++ prs.2.2)

/-- `scoreTotals[scorerName].push(scoreObj.value)` grouping step
(evaluate.ts 270-273): append the value to the key's group, creating the
group at the end on first use. -/
def addValueTo (acc : List (String × List JsValue)) (k : String) (v : JsValue) :
    List (String × List JsValue) :=
  if acc.any (fun p => p.1 = k) then
    acc.map (fun p => if p.1 = k then (p.1, p.2 ++ [v]) else p)
  else acc ++ [(k, [v])]

/-- The grouping pass over all recorded scores (evaluate.ts 266-276):
every score entry whose `value` field is not `undefined` contributes that
field to its map key's group. -/
def scoreTotals (results : List EvalResult) : List (String × List JsValue) :=
  results.foldl (fun acc r =>
    r.scores.foldl (fun acc2 kv =>
      if isUndef (getField kv.2 "value") then acc2
      else addValueTo acc2 kv.1 (getField kv.2 "value")) acc) []

/-- `values.reduce((a, b) => a + b, 0)` with JS `+`. -/
def jsReduceSum (values : List JsValue) : JsValue :=
  values.foldl jsAdd (.vNum 0)

/-- The averages pass (evaluate.ts 278-282). -/
def computeAverages (results : List EvalResult) : List (String × JsValue) :=
  (scoreTotals results).map (fun p =>
    (p.1, jsDiv (jsReduceSum p.2) (.vNum (p.2.length : Rat))))

/-- `evaluate` (evaluate.ts 113-290) on an already-resolved dataset.
`emitFn` is the emission collaborator's behaviour; each call's outcome is
caught and discarded by the source (evaluate.ts 250-254), so it cannot
influence the trace — which is why the definition never inspects it. -/
def evaluate (evalName : String) (dataset : List EvalDatum)
    (task : JsValue → Except String JsValue) (scorers : List Scorer)
    (emitFn : EmitCall → Except String Unit) (emitScores : Bool) : EvalTrace :=
  let out := evaluateItems evalName emitScores task scorers 0 dataset
  { summary :=
      { name := evalName,
        results := out.1,
        averages := computeAverages out.1,
        total := dataset.length,
        errors := out.1.countP (fun r => r.error.isSome) },
    emits := out.2.1,
    rationaleAttrs := out.2.2 }

/-- The `data` argument of `evaluate`: a dataset, or a zero-argument
producer whose invocation may throw. -/
inductive DataArg where
  | direct (dataset : List EvalDatum)
  | producer (prod : Unit → Except String (List EvalDatum))

/-- `typeof data === "function" ? data() : data` (evaluate.ts 119). -/
def resolveData : DataArg → Except String (List EvalDatum)
  | .direct ds => .ok ds
  | .producer f => f ()

/-- The full entry point: resolving the dataset is the only step outside
every try/catch, so a producer's throw propagates (evaluate.ts 119). -/
def evaluateTop (evalName : String) (data : DataArg)
    (task : JsValue → Except String JsValue) (scorers : List Scorer)
    (emitFn : EmitCall → Except String Unit) (emitScores : Bool) :
    Except String EvalTrace :=
  match resolveData data with
  | .error e => .error e
  | .ok dataset => .ok (evaluate evalName dataset task scorers emitFn emitScores)

/- ----------------------------------------------------------------
   Derived definitions used by the statements
---------------------------------------------------------------- -/

/-- The disjunction of the five recognition guards of `adaptScore`; when it
is false the function takes the fallback arm (protocol.ts 117). -/
def adaptRecognized (v : JsValue) : Bool :=
  isScore v || isAutoEvalsResult v || isPhoenixEvalsResult v || typeofIsNumber v || isPlainObj v

/-- The `(key, value)` pairs one item's score map contributes to the
grouping pass: entries whose `value` field is not `undefined`. -/
def pairsOfResult (r : EvalResult) : List (String × JsValue) :=
  r.scores.filterMap (fun kv =>
    if isUndef (getField kv.2 "value") then none
    else some (kv.1, getField kv.2 "value"))

/-- All contributed `(key, value)` pairs of a run, in traversal order. -/
def definedValuePairs : List EvalResult → List (String × JsValue)
  | [] => []
  | r :: rest => pairsOfResult r ++ definedValuePairs rest

/-- The defined (non-`undefined`) `value` fields recorded under key `s`,
in traversal order. -/
def definedValuesFor (results : List EvalResult) (s : String) : List JsValue :=
  ((definedValuePairs results).filter (fun p => p.1 = s)).map (fun p => p.2)

/-- Stated from the claim's words: the numeric `value` fields of the
Scores recorded under key `s` across all items, whose arithmetic mean the
claim says `averages[s]` equals. -/
def numericValuesFor : List EvalResult → String → List Rat
  | [], _ => []
  | r :: rest, s =>
    r.scores.filterMap (fun kv =>
      if kv.1 = s then
        match getField kv.2 "value" with
        | .vNum q => some q
        | _ => none
      else none) ++ numericValuesFor rest s

/-- Whether the task throws on a given datum's input. -/
def taskThrew (task : JsValue → Except String JsValue) (d : EvalDatum) : Bool :=
  match task d.input with
  | .ok _ => false
  | .error _ => true

/-- Whether a scorer's invocation on the given arguments succeeds. -/
def scoreOk (args : ScorerArgs) (sc : Scorer) : Bool :=
  match sc.score args with
  | .ok _ => true
  | .error _ => false

/-- The score-map entry one scorer contributes for one item: its adapted
result under its name if the invocation succeeds, nothing if it throws. -/
def scorerEntry (args : ScorerArgs) (sc : Scorer) : Option (String × JsValue) :=
  match sc.score args with
  | .ok raw => some (sc.name, adaptScore sc.name raw)
  | .error _ => none

/- ----------------------------------------------------------------
   Concrete values used by counterexamples and witnesses
---------------------------------------------------------------- -/

/-- A scorer returning a canonical-shaped Score whose `value` is `null`:
`isScore` passes it through, and `null !== undefined` lets it into the
averages pass. -/
def nullValueScorer : Scorer :=
  { name := "s", score := fun _ => .ok (.vObj [("name", .vStr "s"), ("value", .vNull)]) }

/-- A run of `evaluate` whose only recorded Score has `value: null`. -/
def runWithNullValue : EvalTrace :=
  evaluate "run" [⟨.vStr "q", .vUndefined⟩] (fun _ => .ok (.vStr "a"))
    [nullValueScorer] (fun _ => .ok ()) true

/-- A 501-character rationale, one character beyond the 500-character
bound the source uses for span attributes. -/
def longRationale : String :=
  String.mk (List.replicate 501 'a')

/-- A run whose only recorded Score carries `longRationale`. -/
def runWithLongRationale : EvalTrace :=
  evaluate "run" [⟨.vStr "q", .vUndefined⟩] (fun _ => .ok (.vStr "a"))
    [{ name := "s",
       score := fun _ => .ok (.vObj
         [("name", .vStr "s"), ("value", .vNum 1), ("rationale", .vStr longRationale)]) }]
    (fun _ => .ok ()) true

/-- A two-item dataset whose first item's task (below) throws. -/
def mixedData : List EvalDatum :=
  [⟨.vStr "q0", .vStr "e0"⟩, ⟨.vStr "q1", .vUndefined⟩]

/-- A task that throws on the first item's input and succeeds elsewhere. -/
def mixedTask : JsValue → Except String JsValue :=
  fun v => match v with
    | .vStr "q0" => .error "Error: task down"
    | _ => .ok (.vStr "a")

/-- Two scorers: "ok_scorer" returns 1 everywhere, "bad_scorer" throws on
every invocation. -/
def mixedScorers : List Scorer :=
  [{ name := "ok_scorer", score := fun _ => .ok (.vNum 1) },
   { name := "bad_scorer", score := fun _ => .error "Error: scorer down" }]

/-- The run of `evaluate` over the pieces above. -/
def mixedRun : EvalTrace :=
  evaluate "run" mixedData mixedTask mixedScorers (fun _ => .ok ()) true

/-- One-item dataset for the exact-match scenario. -/
def emData : List EvalDatum :=
  [⟨.vStr "2+2?", .vStr "4"⟩]

/-- Task returning "4". -/
def emTask : JsValue → Except String JsValue :=
  fun _ => .ok (.vStr "4")

/-- One canonical scorer returning `{name: "exact_match", value: 1}`. -/
def emScorers : List Scorer :=
  [⟨"exact_match", fun _ => .ok (.vObj [("name", .vStr "exact_match"), ("value", .vNum 1)])⟩]

/- ----------------------------------------------------------------
   Helper lemmas
---------------------------------------------------------------- -/

theorem typeofIsString_iff {v : JsValue} :
    typeofIsString v = true ↔ ∃ s, v = .vStr s := by
  cases v <;> simp [typeofIsString]

theorem adaptScore_passthrough {v : JsValue} (h : isScore v = true) (s : String) :
    adaptScore s v = v := by
  unfold adaptScore
  rw [if_pos h]

theorem adaptScore_name_of_not_isScore {v : JsValue} (h : isScore v = false) (s : String) :
    getField (adaptScore s v) "name" = .vStr s := by
  unfold adaptScore
  rw [h]
  simp only [Bool.false_eq_true, if_false]
  split
  · rfl
  · split
    · rfl
    · split
      · rfl
      · split
        · rfl
        · rfl

/- ----------------------------------------------------------------
   Claims about the score-shape adapter (protocol.ts)
---------------------------------------------------------------- -/

/-- C1 (counterexample): the claim says the Score produced by `adaptScore`
always carries the caller-declared scorer name; but the passthrough arm
returns the raw result unchanged, embedded name included — here the raw
result's name "other" survives although the declared name is
"exact_match". -/
theorem adaptScore_keeps_embedded_name_cex :
    getField (adaptScore "exact_match"
      (.vObj [("name", .vStr "other"), ("value", .vNum 1)])) "name" = .vStr "other"
    ∧ ("other" : String) ≠ "exact_match" := by
  exact ⟨rfl, by decide⟩

/-- C1 (amended): on every raw result that is not already canonical
(`isScore` false) — i.e. in every arm of `adaptScore` that constructs a
new Score — the produced Score's `name` field is the caller-declared
scorer name.  The passthrough arm returns the raw result unchanged with
its embedded name. -/
theorem adaptScore_name_is_scorer_name (s : String) (v : JsValue)
    (h : isScore v = false) :
    getField (adaptScore s v) "name" = .vStr s :=
  adaptScore_name_of_not_isScore h s

/-- C1 (witness). -/
theorem adaptScore_name_is_scorer_name_witness :
    isScore (.vNum 1) = false
    ∧ getField (adaptScore "exact_match" (.vNum 1)) "name" = .vStr "exact_match" :=
  ⟨rfl, adaptScore_name_is_scorer_name "exact_match" (.vNum 1) rfl⟩

/-- C5: `adaptScore` is a total function on arbitrary plain-data values
(its source has no throwing operation), it always yields a Score whose
`name` field is of string type, and when no recognition guard matches it
yields exactly the fallback Score whose only content besides the name is
the stringified raw value under `metadata.raw`. -/
theorem adaptScore_total_and_fallback (s : String) (v : JsValue) :
    (∃ n, getField (adaptScore s v) "name" = .vStr n)
    ∧ (adaptRecognized v = false →
        adaptScore s v =
          .vObj [("name", .vStr s), ("metadata", .vObj [("raw", .vStr (jsToString v))])]) := by
  constructor
  · by_cases h : isScore v = true
    · rw [adaptScore_passthrough h]
      unfold isScore at h
      by_cases hobj : isObjNonNull v = true
      · rw [hobj] at h
        simp only [Bool.not_true, Bool.false_eq_true, if_false, Bool.and_eq_true] at h
        exact typeofIsString_iff.mp h.1
      · rw [Bool.eq_false_iff.mpr hobj] at h
        simp at h
    · exact ⟨s, adaptScore_name_of_not_isScore (Bool.eq_false_iff.mpr h) s⟩
  · intro hrec
    unfold adaptRecognized at hrec
    simp only [Bool.or_eq_false_iff] at hrec
    unfold adaptScore
    rw [hrec.1.1.1.1, hrec.1.1.1.2, hrec.1.1.2, hrec.1.2, hrec.2]
    rfl

/-- C5 (witness): at `v = undefined` no guard matches and the fallback
Score is produced. -/
theorem adaptScore_total_and_fallback_witness :
    adaptScore "s" .vUndefined =
      .vObj [("name", .vStr "s"), ("metadata", .vObj [("raw", .vStr "undefined")])] :=
  (adaptScore_total_and_fallback "s" .vUndefined).2 rfl

/-- C7: `adaptScore` is idempotent on canonical Scores — any value passing
`isScore` (string-typed `name` and a `value` or `label` key) is returned
unchanged, whatever the declared scorer name. -/
theorem adaptScore_idempotent (s : String) (v : JsValue) (h : isScore v = true) :
    adaptScore s v = v :=
  adaptScore_passthrough h s

/-- C7 (witness). -/
theorem adaptScore_idempotent_witness :
    isScore (.vObj [("name", .vStr "exact_match"), ("value", .vNum 1)]) = true
    ∧ adaptScore "another" (.vObj [("name", .vStr "exact_match"), ("value", .vNum 1)])
        = .vObj [("name", .vStr "exact_match"), ("value", .vNum 1)] :=
  ⟨rfl, adaptScore_idempotent "another" _ rfl⟩

/-- C10: the canonical-shape recognition tests key presence, not
definedness — an object with a string-typed `name` and a `value` or
`label` key is returned unchanged even when every value stored under
those keys is `undefined`. -/
theorem adaptScore_key_presence (s : String) (fields : List (String × JsValue))
    (hname : typeofIsString (getField (.vObj fields) "name") = true)
    (hkey : (hasKey fields "value" || hasKey fields "label") = true)
    (hvalue : getField (.vObj fields) "value" = .vUndefined)
    (hlabel : getField (.vObj fields) "label" = .vUndefined) :
    adaptScore s (.vObj fields) = .vObj fields := by
  apply adaptScore_passthrough
  unfold isScore
  simp only [isObjNonNull, Bool.not_true, Bool.false_eq_true, if_false]
  rw [hname, keyIn, keyIn]
  simp only [hkey, Bool.and_true, Bool.true_and]

/-- C10 (witness): `{name: "x", value: undefined}` — the `value` key is
present but stores `undefined`, and the object still passes through
unchanged. -/
theorem adaptScore_key_presence_witness :
    adaptScore "s" (.vObj [("name", .vStr "x"), ("value", .vUndefined)])
      = .vObj [("name", .vStr "x"), ("value", .vUndefined)] :=
  adaptScore_key_presence "s" [("name", .vStr "x"), ("value", .vUndefined)]
    rfl rfl rfl rfl

/- ----------------------------------------------------------------
   Lookup / grouping lemmas
---------------------------------------------------------------- -/

theorem lookupKey_append {α : Type} (l1 l2 : List (String × α)) (k : String) :
    lookupKey (l1 ++ l2) k =
      match lookupKey l1 k with
      | some v => some v
      | none => lookupKey l2 k := by
  induction l1 with
  | nil => simp [lookupKey]
  | cons p rest ih =>
    by_cases h : p.1 = k
    · simp [lookupKey, h]
    · simpa [lookupKey, h] using ih

theorem lookupKey_eq_none_iff_not_any {α : Type} (l : List (String × α)) (k : String) :
    lookupKey l k = none ↔ l.any (fun kv => kv.1 = k) = false := by
  induction l with
  | nil => simp [lookupKey]
  | cons p rest ih =>
    by_cases h : p.1 = k
    · simp [lookupKey, h]
    · simp [lookupKey, h, ih]

theorem setKey_of_lookup_none {m : List (String × JsValue)} {k : String}
    (h : lookupKey m k = none) (v : JsValue) :
    setKey m k v = m ++ [(k, v)] := by
  unfold setKey
  rw [(lookupKey_eq_none_iff_not_any m k).mp h]
  simp

theorem lookupKey_map_value {α β : Type} (l : List (String × α)) (f : α → β) (k : String) :
    lookupKey (l.map (fun p => (p.1, f p.2))) k = (lookupKey l k).map f := by
  induction l with
  | nil => simp [lookupKey]
  | cons p rest ih =>
    by_cases h : p.1 = k
    · simp [lookupKey, h]
    · simp [lookupKey, h, ih]

theorem lookupKey_update_map (acc : List (String × List JsValue)) (k : String)
    (v : JsValue) (k0 : String) :
    lookupKey (acc.map (fun p => if p.1 = k then (p.1, p.2 ++ [v]) else p)) k0 =
      if k0 = k then (lookupKey acc k).map (fun l => l ++ [v])
      else lookupKey acc k0 := by
  induction acc with
  | nil => by_cases h0 : k0 = k <;> simp [lookupKey, h0]
  | cons p rest ih =>
    rw [List.map_cons]
    by_cases hp : p.1 = k
    · rw [if_pos hp]
      simp only [lookupKey]
      by_cases hc : p.1 = k0
      · have h0 : k0 = k := hc.symm.trans hp
        rw [if_pos hc, if_pos h0, if_pos hp]
        rfl
      · have h0 : ¬(k0 = k) := fun hh => hc (hp.trans hh.symm)
        rw [if_neg hc, ih, if_neg h0, if_neg h0, if_neg hc]
    · rw [if_neg hp]
      simp only [lookupKey]
      by_cases hc : p.1 = k0
      · have h0 : ¬(k0 = k) := fun hh => hp (hc.trans hh)
        rw [if_pos hc, if_neg h0, if_pos hc]
      · rw [if_neg hc, ih]
        by_cases h0 : k0 = k
        · rw [if_pos h0, if_pos h0, if_neg hp]
        · rw [if_neg h0, if_neg h0, if_neg hc]

theorem lookupKey_isSome_of_any {acc : List (String × List JsValue)} {k : String}
    (h : acc.any (fun p => p.1 = k) = true) : ∃ l, lookupKey acc k = some l := by
  rcases ho : lookupKey acc k with _ | l
  · rw [(lookupKey_eq_none_iff_not_any acc k).mp ho] at h
    cases h
  · exact ⟨l, rfl⟩

theorem lookupKey_addValueTo (acc : List (String × List JsValue)) (k : String)
    (v : JsValue) (k0 : String) :
    lookupKey (addValueTo acc k v) k0 =
      if k0 = k then some (((lookupKey acc k).getD []) ++ [v])
      else lookupKey acc k0 := by
  unfold addValueTo
  by_cases hany : acc.any (fun p => p.1 = k) = true
  · rw [if_pos hany, lookupKey_update_map]
    rcases lookupKey_isSome_of_any hany with ⟨l, hl⟩
    by_cases h0 : k0 = k
    · rw [if_pos h0, if_pos h0, hl]
      rfl
    · rw [if_neg h0, if_neg h0]
  · rw [if_neg hany, lookupKey_append]
    have hnone : lookupKey acc k = none :=
      (lookupKey_eq_none_iff_not_any acc k).mpr (Bool.eq_false_iff.mpr hany)
    by_cases h0 : k0 = k
    · subst h0
      rw [hnone]
      simp [lookupKey, hnone]
    · rcases ho : lookupKey acc k0 with _ | l
      · have hk : ¬(k = k0) := fun hh => h0 hh.symm
        simp only [ho, if_neg h0]
        simp [lookupKey, hk]
      · simp [ho, if_neg h0]

theorem lookupKey_foldl_addValueTo (k : String) :
    ∀ (pairs : List (String × JsValue)) (acc : List (String × List JsValue)),
      lookupKey (pairs.foldl (fun a p => addValueTo a p.1 p.2) acc) k =
        if (pairs.filter (fun p => p.1 = k)).isEmpty then lookupKey acc k
        else some (((lookupKey acc k).getD []) ++
          ((pairs.filter (fun p => p.1 = k)).map (fun p => p.2)))
  | [], acc => by simp
  | (k', v) :: rest, acc => by
    rw [List.foldl_cons, lookupKey_foldl_addValueTo k rest (addValueTo acc k' v)]
    by_cases hk : k' = k
    · subst hk
      rw [lookupKey_addValueTo]
      rw [if_pos rfl]
      have hfil : ((k', v) :: rest).filter (fun p => p.1 = k') =
          (k', v) :: rest.filter (fun p => p.1 = k') := by
        simp [List.filter_cons]
      rw [hfil]
      by_cases hrest : (rest.filter (fun p => p.1 = k')).isEmpty = true
      · rw [if_pos hrest, List.isEmpty_iff.mp hrest]
        simp
      · rw [if_neg hrest]
        have hne : (((k', v) :: rest.filter (fun p => p.1 = k')).isEmpty = true) = False := by
          simp
        rw [if_neg (hne ▸ id)]
        simp [List.append_assoc]
    · rw [lookupKey_addValueTo, if_neg (fun hh : k = k' => hk hh.symm)]
      have hfil : ((k', v) :: rest).filter (fun p => p.1 = k) =
          rest.filter (fun p => p.1 = k) := by
        simp [List.filter_cons, hk]
      rw [hfil]

theorem pairsOfResult_foldl (acc : List (String × List JsValue)) (r : EvalResult) :
    r.scores.foldl (fun acc2 kv =>
        if isUndef (getField kv.2 "value") then acc2
        else addValueTo acc2 kv.1 (getField kv.2 "value")) acc =
      (pairsOfResult r).foldl (fun a p => addValueTo a p.1 p.2) acc := by
  unfold pairsOfResult
  induction r.scores generalizing acc with
  | nil => simp
  | cons kv rest ih =>
    by_cases h : isUndef (getField kv.2 "value") = true
    · simp only [List.foldl_cons, List.filterMap_cons, h, ite_true, if_pos]
      exact ih acc
    · have hb : isUndef (getField kv.2 "value") = false := Bool.eq_false_iff.mpr h
      simp only [List.foldl_cons, List.filterMap_cons, hb, Bool.false_eq_true, ite_false,
        if_false]
      exact ih _

theorem scoreTotals_eq_pairs_foldl (results : List EvalResult) :
    scoreTotals results =
      (definedValuePairs results).foldl (fun a p => addValueTo a p.1 p.2) [] := by
  unfold scoreTotals
  suffices h : ∀ acc, results.foldl (fun acc r =>
      r.scores.foldl (fun acc2 kv =>
        if isUndef (getField kv.2 "value") then acc2
        else addValueTo acc2 kv.1 (getField kv.2 "value")) acc) acc =
      (definedValuePairs results).foldl (fun a p => addValueTo a p.1 p.2) acc by
    exact h []
  induction results with
  | nil => intro acc; simp [definedValuePairs]
  | cons r rest ih =>
    intro acc
    rw [List.foldl_cons, ih, definedValuePairs, List.foldl_append, pairsOfResult_foldl]

theorem lookupKey_scoreTotals (results : List EvalResult) (s : String) :
    lookupKey (scoreTotals results) s =
      if (definedValuesFor results s).isEmpty then none
      else some (definedValuesFor results s) := by
  rw [scoreTotals_eq_pairs_foldl, lookupKey_foldl_addValueTo]
  unfold definedValuesFor
  by_cases h : ((definedValuePairs results).filter (fun p => p.1 = s)).isEmpty = true
  · rw [if_pos h, List.isEmpty_iff.mp h]
    simp [lookupKey]
  · rw [if_neg h]
    have hmap : (((definedValuePairs results).filter (fun p => p.1 = s)).map
        (fun p => p.2)).isEmpty = false := by
      rcases hf : (definedValuePairs results).filter (fun p => p.1 = s) with _ | ⟨p, t⟩
      · rw [hf] at h
        simp at h
      · rw [hf]
        simp
    simp only [hmap, Bool.false_eq_true, if_false]
    simp [lookupKey]

theorem lookupKey_computeAverages (results : List EvalResult) (s : String) :
    lookupKey (computeAverages results) s =
      (lookupKey (scoreTotals results) s).map
        (fun vs => jsDiv (jsReduceSum vs) (.vNum (vs.length : Rat))) := by
  unfold computeAverages
  generalize scoreTotals results = l
  induction l with
  | nil => simp [lookupKey]
  | cons p rest ih =>
    by_cases h : p.1 = s
    · simp [lookupKey, h]
    · simp [lookupKey, h, ih]

/- ----------------------------------------------------------------
   JS arithmetic lemmas
---------------------------------------------------------------- -/

theorem jsAdd_num_num (a b : Rat) : jsAdd (.vNum a) (.vNum b) = .vNum (a + b) := rfl

theorem jsReduceSum_map_vNum (qs : List Rat) :
    jsReduceSum (qs.map JsValue.vNum) = .vNum qs.sum := by
  unfold jsReduceSum
  suffices h : ∀ (a : Rat), (qs.map JsValue.vNum).foldl jsAdd (.vNum a) = .vNum (a + qs.sum) by
    simpa using h 0
  induction qs with
  | nil => intro a; simp
  | cons q rest ih =>
    intro a
    rw [List.map_cons, List.foldl_cons, jsAdd_num_num, ih]
    rw [List.sum_cons]
    ring_nf

theorem jsDiv_num_num {b : Rat} (hb : b ≠ 0) (a : Rat) :
    jsDiv (.vNum a) (.vNum b) = .vNum (a / b) := by
  unfold jsDiv toPrimitiveJs jsToNumber
  simp [hb]

theorem jsSlice_length (s : String) (n : Nat) :
    (jsSlice s n).length = min n s.length := by
  unfold jsSlice
  show (s.data.take n).length = min n s.data.length
  exact List.length_take n s.data

theorem jsSlice_length_le (s : String) (n : Nat) : (jsSlice s n).length ≤ n := by
  rw [jsSlice_length]
  exact min_le_left n s.length

/- ----------------------------------------------------------------
   Orchestrator lemmas
---------------------------------------------------------------- -/

theorem processItem_of_error {task : JsValue → Except String JsValue} {d : EvalDatum}
    {e : String} (h : task d.input = .error e) (evalName : String) (b : Bool) (i : Nat)
    (scorers : List Scorer) :
    processItem evalName b i d task scorers =
      ({ input := d.input, expected := d.expected, output := none,
         scores := [], error := some e }, [], []) := by
  unfold processItem
  rw [h]

theorem processItem_of_ok {task : JsValue → Except String JsValue} {d : EvalDatum}
    {out : JsValue} (h : task d.input = .ok out) (evalName : String) (b : Bool) (i : Nat)
    (scorers : List Scorer) :
    processItem evalName b i d task scorers =
      ({ input := d.input, expected := d.expected, output := some out,
         scores := (runScorersAux i (mkScorerArgs d out) [] [] scorers).1, error := none },
       (if b then (runScorersAux i (mkScorerArgs d out) [] [] scorers).1.map
          (mkEmitCall evalName i) else []),
       (runScorersAux i (mkScorerArgs d out) [] [] scorers).2) := by
  unfold processItem
  rw [h]

theorem processItem_input (evalName : String) (b : Bool) (i : Nat) (d : EvalDatum)
    (task : JsValue → Except String JsValue) (scorers : List Scorer) :
    (processItem evalName b i d task scorers).1.input = d.input := by
  rcases h : task d.input with e | out
  · rw [processItem_of_error h]
  · rw [processItem_of_ok h]

theorem processItem_error_isSome (evalName : String) (b : Bool) (i : Nat) (d : EvalDatum)
    (task : JsValue → Except String JsValue) (scorers : List Scorer) :
    (processItem evalName b i d task scorers).1.error.isSome = taskThrew task d := by
  unfold taskThrew
  rcases h : task d.input with e | out
  · rw [processItem_of_error h]
    rfl
  · rw [processItem_of_ok h]
    rfl

theorem evaluateItems_results_length (evalName : String) (b : Bool)
    (task : JsValue → Except String JsValue) (scorers : List Scorer) :
    ∀ (ds : List EvalDatum) (i0 : Nat),
      (evaluateItems evalName b task scorers i0 ds).1.length = ds.length
  | [], _ => rfl
  | _ :: rest, i0 => by
    unfold evaluateItems
    simp [evaluateItems_results_length evalName b task scorers rest (i0 + 1)]

theorem evaluateItems_results_get? (evalName : String) (b : Bool)
    (task : JsValue → Except String JsValue) (scorers : List Scorer) :
    ∀ (ds : List EvalDatum) (i0 j : Nat),
      (evaluateItems evalName b task scorers i0 ds).1.get? j =
        (ds.get? j).map (fun d => (processItem evalName b (i0 + j) d task scorers).1)
  | [], _, j => by simp [evaluateItems]
  | d :: rest, i0, 0 => by simp [evaluateItems]
  | d :: rest, i0, j + 1 => by
    unfold evaluateItems
    simp only [List.get?_cons_succ]
    rw [evaluateItems_results_get? evalName b task scorers rest (i0 + 1) j]
    have : i0 + 1 + j = i0 + (j + 1) := by omega
    rw [this]

theorem evaluateItems_errors_count (evalName : String) (b : Bool)
    (task : JsValue → Except String JsValue) (scorers : List Scorer) :
    ∀ (ds : List EvalDatum) (i0 : Nat),
      (evaluateItems evalName b task scorers i0 ds).1.countP (fun r => r.error.isSome) =
        ds.countP (taskThrew task)
  | [], _ => rfl
  | d :: rest, i0 => by
    unfold evaluateItems
    rw [List.countP_cons, List.countP_cons]
    rw [evaluateItems_errors_count evalName b task scorers rest (i0 + 1)]
    rw [processItem_error_isSome]

theorem emits_itemIndex_of_mem {evalName : String} {i : Nat}
    {c : EmitCall} {scores : List (String × JsValue)}
    (h : c ∈ scores.map (mkEmitCall evalName i)) : c.itemIndex = i := by
  rcases List.mem_map.mp h with ⟨kv', _, hkv⟩
  rw [← hkv]
  rfl

theorem evaluateItems_emits_mem (evalName : String) (b : Bool)
    (task : JsValue → Except String JsValue) (scorers : List Scorer) :
    ∀ (ds : List EvalDatum) (i0 : Nat) (c : EmitCall),
      c ∈ (evaluateItems evalName b task scorers i0 ds).2.1 →
      ∃ j d, ds.get? j = some d ∧ c.itemIndex = i0 + j ∧ taskThrew task d = false
  | [], _, c => by simp [evaluateItems]
  | d :: rest, i0, c => by
    unfold evaluateItems
    intro hmem
    rcases List.mem_append.mp hmem with hhead | htail
    · refine ⟨0, d, rfl, ?_, ?_⟩
      · rcases h : task d.input with e | out
        · rw [processItem_of_error h] at hhead
          simp at hhead
        · rw [processItem_of_ok h] at hhead
          cases b
          · simp at hhead
          · simp only [if_true] at hhead
            rw [emits_itemIndex_of_mem hhead]
            omega
      · rcases h : task d.input with e | out
        · rw [processItem_of_error h] at hhead
          simp at hhead
        · unfold taskThrew
          rw [h]
    · rcases evaluateItems_emits_mem evalName b task scorers rest (i0 + 1) c htail with
        ⟨j, d', hj, hidx, hok⟩
      exact ⟨j + 1, d', by simpa using hj, by omega, hok⟩

theorem evaluateItems_emits_from_scores (evalName : String) (b : Bool)
    (task : JsValue → Except String JsValue) (scorers : List Scorer) :
    ∀ (ds : List EvalDatum) (i0 : Nat) (c : EmitCall),
      c ∈ (evaluateItems evalName b task scorers i0 ds).2.1 →
      ∃ r, r ∈ (evaluateItems evalName b task scorers i0 ds).1 ∧
        ∃ kv, kv ∈ r.scores ∧ c.name = kv.1 ∧ c.rationale = getField kv.2 "rationale"
  | [], _, c => by simp [evaluateItems]
  | d :: rest, i0, c => by
    unfold evaluateItems
    intro hmem
    rcases List.mem_append.mp hmem with hhead | htail
    · rcases h : task d.input with e | out
      · rw [processItem_of_error h] at hhead
        simp at hhead
      · rw [processItem_of_ok h] at hhead
        cases b
        · simp at hhead
        · simp only [if_true] at hhead
          rcases List.mem_map.mp hhead with ⟨kv, hkv, hc⟩
          refine ⟨(processItem evalName true i0 d task scorers).1, List.mem_cons_self _ _,
            kv, ?_, ?_, ?_⟩
          · rw [processItem_of_ok h]
            exact hkv
          · rw [← hc]
            rfl
          · rw [← hc]
            rfl
    · rcases evaluateItems_emits_from_scores evalName b task scorers rest (i0 + 1) c htail
        with ⟨r, hr, hkv⟩
      exact ⟨r, List.mem_cons_of_mem _ hr, hkv⟩

theorem rationaleEvent_attr_bound (i : Nat) (scorerName : String) (scoreObj : JsValue) :
    ∀ a ∈ rationaleEvent i scorerName scoreObj, a.attr.length ≤ 500 := by
  unfold rationaleEvent
  rcases getField scoreObj "rationale" with _ | _ | _ | _ | _ | r | _ | _
  case vStr =>
    show ∀ a ∈ (if r = "" then ([] : List RationaleAttrEvent)
        else [⟨i, scorerName, jsSlice r 500⟩]), a.attr.length ≤ 500
    by_cases hr : r = ""
    · rw [if_pos hr]
      intro a ha
      simp at ha
    · rw [if_neg hr]
      intro a ha
      rw [List.mem_singleton.mp ha]
      exact jsSlice_length_le r 500
  all_goals intro a ha
  all_goals simp at ha

theorem runScorersAux_attrs_bound (i : Nat) (args : ScorerArgs) :
    ∀ (scorers : List Scorer) (acc : List (String × JsValue))
      (ats : List RationaleAttrEvent),
      (∀ a ∈ ats, a.attr.length ≤ 500) →
      ∀ a ∈ (runScorersAux i args acc ats scorers).2, a.attr.length ≤ 500
  | [], acc, ats, hats => hats
  | sc :: rest, acc, ats, hats => by
    unfold runScorersAux
    rcases hs : sc.score args with e | raw
    · exact runScorersAux_attrs_bound i args rest acc ats hats
    · apply runScorersAux_attrs_bound i args rest _ _
      intro a ha
      rcases List.mem_append.mp ha with h1 | h2
      · exact hats a h1
      · exact rationaleEvent_attr_bound i sc.name (adaptScore sc.name raw) a h2

theorem evaluateItems_attrs_bound (evalName : String) (b : Bool)
    (task : JsValue → Except String JsValue) (scorers : List Scorer) :
    ∀ (ds : List EvalDatum) (i0 : Nat),
      ∀ a ∈ (evaluateItems evalName b task scorers i0 ds).2.2, a.attr.length ≤ 500
  | [], _ => by simp [evaluateItems]
  | d :: rest, i0 => by
    unfold evaluateItems
    intro a ha
    rcases List.mem_append.mp ha with hhead | htail
    · rcases h : task d.input with e | out
      · rw [processItem_of_error h] at hhead
        simp at hhead
      · rw [processItem_of_ok h] at hhead
        exact runScorersAux_attrs_bound i0 (mkScorerArgs d out) scorers [] []
          (by intro a ha; simp at ha) a hhead
    · exact evaluateItems_attrs_bound evalName b task scorers rest (i0 + 1) a htail

theorem runScorersAux_scores (i : Nat) (args : ScorerArgs) :
    ∀ (scorers : List Scorer) (acc : List (String × JsValue))
      (ats : List RationaleAttrEvent),
      (∀ sc ∈ scorers, lookupKey acc sc.name = none) →
      (scorers.map Scorer.name).Nodup →
      (runScorersAux i args acc ats scorers).1 = acc ++ scorers.filterMap (scorerEntry args)
  | [], acc, ats, _, _ => by simp [runScorersAux]
  | sc :: rest, acc, ats, hdisj, hnodup => by
    unfold runScorersAux
    rcases hs : sc.score args with e | raw
    · rw [runScorersAux_scores i args rest acc ats
        (fun sc' h => hdisj sc' (List.mem_cons_of_mem _ h))
        (by simpa using (List.nodup_cons.mp (by simpa using hnodup)).2)]
      simp [List.filterMap_cons, scorerEntry, hs]
    · have hnone := hdisj sc (List.mem_cons_self _ _)
      show (runScorersAux i args (setKey acc sc.name (adaptScore sc.name raw))
          (ats ++ rationaleEvent i sc.name (adaptScore sc.name raw)) rest).1 =
        acc ++ List.filterMap (scorerEntry args) (sc :: rest)
      rw [setKey_of_lookup_none hnone]
      have hnotmem : sc.name ∉ rest.map Scorer.name :=
        (List.nodup_cons.mp (by simpa using hnodup)).1
      have hdisj' : ∀ sc' ∈ rest,
          lookupKey (acc ++ [(sc.name, adaptScore sc.name raw)]) sc'.name = none := by
        intro sc' h'
        rw [lookupKey_append, hdisj sc' (List.mem_cons_of_mem _ h')]
        have hne : ¬(sc.name = sc'.name) := fun hh =>
          hnotmem (hh ▸ List.mem_map_of_mem Scorer.name h')
        simp [lookupKey, hne]
      rw [runScorersAux_scores i args rest _ _ hdisj'
        (by simpa using (List.nodup_cons.mp (by simpa using hnodup)).2)]
      simp [List.filterMap_cons, scorerEntry, hs, List.append_assoc]

theorem filterMap_scorerEntry_keys (args : ScorerArgs) :
    ∀ (scorers : List Scorer),
      (scorers.filterMap (scorerEntry args)).map Prod.fst =
        (scorers.filter (scoreOk args)).map Scorer.name
  | [] => rfl
  | sc :: rest => by
    rcases hs : sc.score args with e | raw <;>
      simp [List.filterMap_cons, List.filter_cons, scorerEntry, scoreOk, hs,
        filterMap_scorerEntry_keys args rest]

/- ----------------------------------------------------------------
   Numeric-averages lemmas
---------------------------------------------------------------- -/

@[simp] theorem isUndef_vUndefined : isUndef .vUndefined = true := rfl
@[simp] theorem isUndef_vNull : isUndef .vNull = false := rfl
@[simp] theorem isUndef_vBool (b : Bool) : isUndef (.vBool b) = false := rfl
@[simp] theorem isUndef_vNum (q : Rat) : isUndef (.vNum q) = false := rfl
@[simp] theorem isUndef_vNaN : isUndef .vNaN = false := rfl
@[simp] theorem isUndef_vStr (s : String) : isUndef (.vStr s) = false := rfl
@[simp] theorem isUndef_vArr (xs : List JsValue) : isUndef (.vArr xs) = false := rfl
@[simp] theorem isUndef_vObj (fs : List (String × JsValue)) : isUndef (.vObj fs) = false := rfl

@[simp] theorem isFiniteNum_vUndefined : isFiniteNum .vUndefined = false := rfl
@[simp] theorem isFiniteNum_vNull : isFiniteNum .vNull = false := rfl
@[simp] theorem isFiniteNum_vBool (b : Bool) : isFiniteNum (.vBool b) = false := rfl
@[simp] theorem isFiniteNum_vNum (q : Rat) : isFiniteNum (.vNum q) = true := rfl
@[simp] theorem isFiniteNum_vNaN : isFiniteNum .vNaN = false := rfl
@[simp] theorem isFiniteNum_vStr (s : String) : isFiniteNum (.vStr s) = false := rfl
@[simp] theorem isFiniteNum_vArr (xs : List JsValue) : isFiniteNum (.vArr xs) = false := rfl
@[simp] theorem isFiniteNum_vObj (fs : List (String × JsValue)) :
    isFiniteNum (.vObj fs) = false := rfl

theorem scores_defined_filter_numeric (s : String) :
    ∀ (scores : List (String × JsValue)),
      (∀ kv ∈ scores,
        (isUndef (getField kv.2 "value") || isFiniteNum (getField kv.2 "value")) = true) →
      ((scores.filterMap (fun kv =>
          if isUndef (getField kv.2 "value") then none
          else some (kv.1, getField kv.2 "value"))).filter
            (fun p => p.1 = s)).map (fun p => p.2) =
        (scores.filterMap (fun kv =>
          if kv.1 = s then
            match getField kv.2 "value" with
            | .vNum q => some q
            | _ => none
          else none)).map JsValue.vNum
  | [], _ => rfl
  | kv :: rest, h => by
    have hkv := h kv (List.mem_cons_self _ _)
    have hrest := scores_defined_filter_numeric s rest
      (fun kv' h' => h kv' (List.mem_cons_of_mem _ h'))
    rw [List.filterMap_cons, List.filterMap_cons]
    rcases Bool.or_eq_true _ _ ▸ hkv with hu | hf
    · rcases hg : getField kv.2 "value" with _ | _ | _ | _ | _ | _ | _ | _ <;>
        rw [hg] at hu
      · simp [hrest]
      all_goals simp at hu
    · rcases hg : getField kv.2 "value" with _ | _ | _ | q | _ | _ | _ | _ <;>
        rw [hg] at hf
      · simp at hf
      · simp at hf
      · simp at hf
      · by_cases hks : kv.1 = s <;> simp [hks, hrest]
      all_goals simp at hf

theorem definedValuesFor_of_numeric (s : String) :
    ∀ (results : List EvalResult),
      (∀ r ∈ results, ∀ kv ∈ r.scores,
        (isUndef (getField kv.2 "value") || isFiniteNum (getField kv.2 "value")) = true) →
      definedValuesFor results s = (numericValuesFor results s).map JsValue.vNum
  | [], _ => rfl
  | r :: rest, h => by
    have hr := scores_defined_filter_numeric s r.scores
      (fun kv hkv => h r (List.mem_cons_self _ _) kv hkv)
    have hrest := definedValuesFor_of_numeric s rest
      (fun r' h' kv hkv => h r' (List.mem_cons_of_mem _ h') kv hkv)
    unfold definedValuesFor at hrest ⊢
    rw [definedValuePairs, numericValuesFor, List.filter_append, List.map_append,
      List.map_append, hrest]
    unfold pairsOfResult at hr ⊢
    rw [hr]

theorem lookupKey_computeAverages_numeric (results : List EvalResult) (s : String)
    (hnum : ∀ r ∈ results, ∀ kv ∈ r.scores,
      (isUndef (getField kv.2 "value") || isFiniteNum (getField kv.2 "value")) = true) :
    lookupKey (computeAverages results) s =
      if numericValuesFor results s = [] then none
      else some (.vNum ((numericValuesFor results s).sum /
        ((numericValuesFor results s).length : Rat))) := by
  rw [lookupKey_computeAverages, lookupKey_scoreTotals,
    definedValuesFor_of_numeric s results hnum]
  by_cases hnil : numericValuesFor results s = []
  · rw [if_pos hnil, hnil]
    simp
  · rw [if_neg hnil]
    have hne : ((numericValuesFor results s).map JsValue.vNum).isEmpty = false := by
      rcases hq : numericValuesFor results s with _ | ⟨q, t⟩
      · exact absurd hq hnil
      · simp
    simp only [hne, Bool.false_eq_true, if_false, Option.map_some']
    rw [jsReduceSum_map_vNum, List.length_map]
    have hlen : ((numericValuesFor results s).length : Rat) ≠ 0 := by
      have : (numericValuesFor results s).length ≠ 0 := by
        intro h0
        exact hnil (List.length_eq_zero.mp h0)
      exact_mod_cast this
    rw [jsDiv_num_num hlen]

/- ----------------------------------------------------------------
   Claims about the orchestrator (evaluate.ts)
---------------------------------------------------------------- -/

/-- C6: `evaluate` returns `summary.total` equal to the dataset length,
`summary.results` with exactly `summary.total` elements in dataset order,
and `results[i].input = dataset[i].input` for every index. -/
theorem evaluate_preserves_dataset (evalName : String) (ds : List EvalDatum)
    (task : JsValue → Except String JsValue) (scorers : List Scorer)
    (emitFn : EmitCall → Except String Unit) (b : Bool) :
    (evaluate evalName ds task scorers emitFn b).summary.total = ds.length
    ∧ (evaluate evalName ds task scorers emitFn b).summary.results.length =
        (evaluate evalName ds task scorers emitFn b).summary.total
    ∧ ∀ i : Nat,
        ((evaluate evalName ds task scorers emitFn b).summary.results.get? i).map
            (fun r => r.input) =
          (ds.get? i).map (fun d => d.input) := by
  refine ⟨rfl, ?_, ?_⟩
  · show (evaluateItems evalName b task scorers 0 ds).1.length = ds.length
    exact evaluateItems_results_length evalName b task scorers ds 0
  · intro i
    show ((evaluateItems evalName b task scorers 0 ds).1.get? i).map (fun r => r.input) = _
    rw [evaluateItems_results_get? evalName b task scorers ds 0 i]
    rcases hdi : ds.get? i with _ | d
    · rfl
    · simp [processItem_input]

/-- C3: for an item whose task throws, the recorded result carries the
error's textual rendering, has empty `scores` and no `output`; no score is
handed to the emission collaborator for that item; and `summary.errors`
counts exactly the items whose task throws. -/
theorem evaluate_task_failure_isolated (evalName : String) (ds : List EvalDatum)
    (task : JsValue → Except String JsValue) (scorers : List Scorer)
    (emitFn : EmitCall → Except String Unit) (b : Bool) (i : Nat) (d : EvalDatum)
    (e : String) (hd : ds.get? i = some d) (he : task d.input = .error e) :
    (evaluate evalName ds task scorers emitFn b).summary.results.get? i =
      some { input := d.input, expected := d.expected, output := none,
             scores := [], error := some e }
    ∧ (∀ c ∈ (evaluate evalName ds task scorers emitFn b).emits, c.itemIndex ≠ i)
    ∧ (evaluate evalName ds task scorers emitFn b).summary.errors =
        ds.countP (taskThrew task) := by
  refine ⟨?_, ?_, ?_⟩
  · show (evaluateItems evalName b task scorers 0 ds).1.get? i = _
    rw [evaluateItems_results_get? evalName b task scorers ds 0 i, hd]
    simp only [Option.map_some']
    rw [processItem_of_error he]
  · intro c hc hci
    rcases evaluateItems_emits_mem evalName b task scorers ds 0 c hc with
      ⟨j, d', hj, hidx, hok⟩
    have hji : j = i := by omega
    subst hji
    rw [hd] at hj
    rcases Option.some_injective _ hj with rfl
    unfold taskThrew at hok
    rw [he] at hok
    cases hok
  · show (evaluateItems evalName b task scorers 0 ds).1.countP _ = _
    exact evaluateItems_errors_count evalName b task scorers ds 0

/-- C4: for an item whose task succeeds (and distinct scorer names, the
spec's keying model), the item's score map is exactly one entry per
non-throwing scorer, keyed by that scorer's name and holding its adapted
result, in caller order; a throwing scorer contributes no entry and leaves
the others untouched. -/
theorem evaluate_scorer_failure_isolated (evalName : String) (ds : List EvalDatum)
    (task : JsValue → Except String JsValue) (scorers : List Scorer)
    (emitFn : EmitCall → Except String Unit) (b : Bool) (i : Nat) (d : EvalDatum)
    (out : JsValue) (hd : ds.get? i = some d) (hok : task d.input = .ok out)
    (hnodup : (scorers.map Scorer.name).Nodup) :
    ((evaluate evalName ds task scorers emitFn b).summary.results.get? i).map
        (fun r => r.scores) =
      some (scorers.filterMap (scorerEntry (mkScorerArgs d out)))
    ∧ ((evaluate evalName ds task scorers emitFn b).summary.results.get? i).map
        (fun r => r.scores.map Prod.fst) =
      some ((scorers.filter (scoreOk (mkScorerArgs d out))).map Scorer.name) := by
  have hres : (evaluate evalName ds task scorers emitFn b).summary.results.get? i =
      some (processItem evalName b i d task scorers).1 := by
    show (evaluateItems evalName b task scorers 0 ds).1.get? i = _
    rw [evaluateItems_results_get? evalName b task scorers ds 0 i, hd]
    simp only [Option.map_some']
    rw [Nat.zero_add]
  have hscores : (processItem evalName b i d task scorers).1.scores =
      scorers.filterMap (scorerEntry (mkScorerArgs d out)) := by
    rw [processItem_of_ok hok]
    show (runScorersAux i (mkScorerArgs d out) [] [] scorers).1 = _
    rw [runScorersAux_scores i (mkScorerArgs d out) scorers [] []
      (fun sc _ => rfl) hnodup]
    simp
  constructor
  · rw [hres, Option.map_some', hscores]
  · rw [hres, Option.map_some', hscores, filterMap_scorerEntry_keys]

/-- C9: `evaluate` on a directly supplied dataset always returns a
complete summary, whatever the task, scorers or emission collaborator do;
the only outward failure is a dataset producer that throws, whose error
propagates unchanged. -/
theorem evaluate_throws_iff_producer_throws (evalName : String) (ds : List EvalDatum)
    (prod : Unit → Except String (List EvalDatum))
    (task : JsValue → Except String JsValue) (scorers : List Scorer)
    (emitFn : EmitCall → Except String Unit) (b : Bool) :
    evaluateTop evalName (.direct ds) task scorers emitFn b =
      .ok (evaluate evalName ds task scorers emitFn b)
    ∧ ∀ e, prod () = .error e →
        evaluateTop evalName (.producer prod) task scorers emitFn b = .error e := by
  constructor
  · rfl
  · intro e h
    unfold evaluateTop resolveData
    simp only [h]

/-- C8 (amended): every rationale attached to a scorer span as the
`eval.score.rationale` attribute is truncated to at most 500 characters;
the rationale handed to the score-emission collaborator, by contrast, is
the recorded Score's `rationale` field passed through unchanged. -/
theorem evaluate_rationale_truncation (evalName : String) (ds : List EvalDatum)
    (task : JsValue → Except String JsValue) (scorers : List Scorer)
    (emitFn : EmitCall → Except String Unit) (b : Bool) :
    (∀ a ∈ (evaluate evalName ds task scorers emitFn b).rationaleAttrs,
      a.attr.length ≤ 500)
    ∧ (∀ c ∈ (evaluate evalName ds task scorers emitFn b).emits,
        ∃ r, r ∈ (evaluate evalName ds task scorers emitFn b).summary.results ∧
          ∃ kv, kv ∈ r.scores ∧ c.name = kv.1 ∧
            c.rationale = getField kv.2 "rationale") := by
  constructor
  · exact evaluateItems_attrs_bound evalName b task scorers ds 0
  · exact evaluateItems_emits_from_scores evalName b task scorers ds 0

/-- C8 (counterexample): with a 501-character rationale, the span
attribute is truncated to 500 characters but the emission collaborator is
handed the full 501-character string unchanged — the emission path applies
no bound at all. -/
theorem evaluate_rationale_emit_untruncated_cex :
    runWithLongRationale.emits.map (fun c => c.rationale) = [.vStr longRationale]
    ∧ longRationale.length = 501
    ∧ runWithLongRationale.rationaleAttrs.map (fun a => a.attr.length) = [500] := by
  refine ⟨rfl, ?_, ?_⟩
  · show (String.mk (List.replicate 501 'a')).length = 501
    show (List.replicate 501 'a').length = 501
    rw [List.length_replicate]
  · have h1 : runWithLongRationale.rationaleAttrs =
        [⟨0, "s", jsSlice longRationale 500⟩] := rfl
    rw [h1, List.map_cons, List.map_nil, jsSlice_length]
    have h2 : longRationale.length = 501 := by
      show (List.replicate 501 'a').length = 501
      rw [List.length_replicate]
    rw [h2]
    norm_num

/-- C8 (witness for the amended theorem). -/
theorem evaluate_rationale_truncation_witness :
    (jsSlice longRationale 500).length ≤ 500 := by
  have h := (evaluate_rationale_truncation "run"
    [⟨.vStr "q", .vUndefined⟩] (fun _ => .ok (.vStr "a"))
    [{ name := "s",
       score := fun _ => .ok (.vObj
         [("name", .vStr "s"), ("value", .vNum 1), ("rationale", .vStr longRationale)]) }]
    (fun _ => .ok ()) true).1
  exact h ⟨0, "s", jsSlice longRationale 500⟩
    (by
      show (⟨0, "s", jsSlice longRationale 500⟩ : RationaleAttrEvent) ∈
        [(⟨0, "s", jsSlice longRationale 500⟩ : RationaleAttrEvent)]
      exact List.mem_singleton.mpr rfl)

/-- C2 (counterexample): the code keys averaging on `value !== undefined`,
not on numeric-ness.  Here the only Score recorded under key "s" has
`value: null` — no defined *numeric* value, so the claim requires "s" to
be absent from `averages` — yet the code maps "s" to 0 (JS `0 + null`
is 0). -/
theorem evaluate_averages_null_value_cex :
    runWithNullValue.summary.results.map (fun r => r.scores) =
      [[("s", .vObj [("name", .vStr "s"), ("value", .vNull)])]]
    ∧ numericValuesFor runWithNullValue.summary.results "s" = []
    ∧ lookupKey runWithNullValue.summary.averages "s" = some (.vNum 0) := by
  refine ⟨rfl, rfl, ?_⟩
  have h1 : lookupKey runWithNullValue.summary.averages "s" =
      some (jsDiv (jsReduceSum [.vNull]) (.vNum (((1 : Nat) : Rat)))) := rfl
  rw [h1]
  norm_num [jsDiv, jsReduceSum, jsAdd, toPrimitiveJs, jsToNumber, List.foldl_cons,
    List.foldl_nil]

/-- C2 (amended): when every recorded Score's `value` field is `undefined`
or a (finite) number — in particular always, under the declared
`value?: number` interface — `averages[s]` equals the arithmetic mean of
the numeric values recorded under key `s`, and `s` is absent when there
are none.  (Unamended, the claim fails: a defined non-numeric `value` such
as `null` is included by the `!== undefined` test, see the
counterexample.) -/
theorem evaluate_averages_mean (evalName : String) (ds : List EvalDatum)
    (task : JsValue → Except String JsValue) (scorers : List Scorer)
    (emitFn : EmitCall → Except String Unit) (b : Bool) (s : String)
    (hnum : ∀ r ∈ (evaluate evalName ds task scorers emitFn b).summary.results,
      ∀ kv ∈ r.scores,
      (isUndef (getField kv.2 "value") || isFiniteNum (getField kv.2 "value")) = true) :
    lookupKey (evaluate evalName ds task scorers emitFn b).summary.averages s =
      if numericValuesFor (evaluate evalName ds task scorers emitFn b).summary.results s
          = [] then none
      else some (.vNum
        ((numericValuesFor (evaluate evalName ds task scorers emitFn b).summary.results
            s).sum /
          ((numericValuesFor (evaluate evalName ds task scorers emitFn b).summary.results
            s).length : Rat))) :=
  lookupKey_computeAverages_numeric _ s hnum

/-- C2 (witness): one item, scorer "exact_match" returning `value: 1` —
the average is 1. -/
theorem evaluate_averages_mean_witness :
    lookupKey (evaluate "qa" emData emTask emScorers (fun _ => .ok ()) true).summary.averages
      "exact_match" = some (.vNum 1) := by
  have h := evaluate_averages_mean "qa" emData emTask emScorers (fun _ => .ok ()) true
    "exact_match" (by decide)
  rw [h]
  rw [show numericValuesFor
      (evaluate "qa" emData emTask emScorers (fun _ => .ok ()) true).summary.results
      "exact_match" = [1] from rfl]
  norm_num

/-- C3 (witness): on the two-item mixed run whose first item's task
throws, the first result records the error with empty scores, and the
error count is 1. -/
theorem evaluate_task_failure_isolated_witness :
    mixedRun.summary.results.get? 0 =
      some { input := .vStr "q0", expected := .vStr "e0", output := none,
             scores := [], error := some "Error: task down" }
    ∧ mixedRun.summary.errors = 1 := by
  have h := evaluate_task_failure_isolated "run" mixedData mixedTask mixedScorers
    (fun _ => .ok ()) true 0 ⟨.vStr "q0", .vStr "e0"⟩ "Error: task down" rfl rfl
  exact ⟨h.1, h.2.2.trans rfl⟩

/-- C4 (witness): on the mixed run's second item (task succeeds),
"ok_scorer" contributes exactly its adapted entry and throwing
"bad_scorer" contributes none. -/
theorem evaluate_scorer_failure_isolated_witness :
    (mixedRun.summary.results.get? 1).map (fun r => r.scores) =
      some [("ok_scorer", .vObj [("name", .vStr "ok_scorer"), ("value", .vNum 1)])]
    ∧ (mixedRun.summary.results.get? 1).map (fun r => r.scores.map Prod.fst) =
      some ["ok_scorer"] := by
  have h := evaluate_scorer_failure_isolated "run" mixedData mixedTask mixedScorers
    (fun _ => .ok ()) true 1 ⟨.vStr "q1", .vUndefined⟩ (.vStr "a") rfl rfl (by decide)
  exact ⟨h.1, h.2⟩

/-- C9 (witness): a directly supplied dataset yields `.ok`, a throwing
producer propagates its error. -/
theorem evaluate_throws_iff_producer_throws_witness :
    evaluateTop "run" (.direct mixedData) mixedTask mixedScorers (fun _ => .ok ()) true =
      .ok (evaluate "run" mixedData mixedTask mixedScorers (fun _ => .ok ()) true)
    ∧ evaluateTop "run" (.producer (fun _ => .error "Error: no dataset")) mixedTask
        mixedScorers (fun _ => .ok ()) true = .error "Error: no dataset" := by
  have h := evaluate_throws_iff_producer_throws "run" mixedData
    (fun _ => .error "Error: no dataset") mixedTask mixedScorers (fun _ => .ok ()) true
  exact ⟨h.1, h.2 "Error: no dataset" rfl⟩

end SdkEvals
